import Mathlib

/-!
Verification of the `str-var-subst` template-variable substitution library.

The source (`src/lib.rs`) compiles the fixed regex
`(%\{\{)([a-zA-Z_]\w*)(\}\})` once and defines

* `replace_variables(template_text, replacement_strategy)`: calls
  `RE.replace_all`, replacing each non-overlapping left-to-right match by
  `replacement_strategy(remove_var_delimiters(caps[0]))`;
* `remove_var_delimiters(raw)`: deletes every `{`, `}` and `%` character and
  trims surrounding whitespace;
* `map_to_env(var)`: looks the name up in the process environment, returning
  the value on success and the empty string on any lookup error.

The embedding below works on `List Char` (Rust `&str` at char granularity:
every literal character of the pattern is ASCII and the character classes are
per-codepoint, so byte-level and char-level matching coincide on valid UTF-8).
Strings wrap the list model at the boundary.
-/

namespace StrVarSubst

/-- The character class `[a-zA-Z_]` opening the identifier group of the
pattern `(%\{\{)([a-zA-Z_]\w*)(\}\})` (ASCII letters and underscore). -/
def isIdentStart (c : Char) : Bool :=
  (0x61 ≤ c.toNat && c.toNat ≤ 0x7A) ||
  (0x41 ≤ c.toNat && c.toNat ≤ 0x5A) ||
  c.toNat = 0x5F

/-- The regex crate's `\w` class, which with the crate's default Unicode mode
is `[\p{Alphabetic}\p{M}\p{Nd}\p{Pc}\p{Join_Control}]`.  It is embedded here
exactly on the Basic Latin and Latin-1 Supplement blocks (code points below
`0x100`): ASCII letters, digits and underscore, plus the Latin-1 alphabetic
characters `ª` (0xAA), `µ` (0xB5), `º` (0xBA), `À`–`Ö` (0xC0–0xD6),
`Ø`–`ö` (0xD8–0xF6) and `ø`–`ÿ` (0xF8–0xFF).  The true class also contains
word characters above 0xFF (Greek, Cyrillic, …), which this table omits; every
concrete evaluation below stays inside the embedded range, and that the class
properly exceeds ASCII `[A-Za-z0-9_]` is already witnessed inside Latin-1. -/
def isWordChar (c : Char) : Bool :=
  (0x61 ≤ c.toNat && c.toNat ≤ 0x7A) ||
  (0x41 ≤ c.toNat && c.toNat ≤ 0x5A) ||
  (0x30 ≤ c.toNat && c.toNat ≤ 0x39) ||
  c.toNat = 0x5F ||
  c.toNat = 0xAA || c.toNat = 0xB5 || c.toNat = 0xBA ||
  (0xC0 ≤ c.toNat && c.toNat ≤ 0xD6) ||
  (0xD8 ≤ c.toNat && c.toNat ≤ 0xF6) ||
  (0xF8 ≤ c.toNat && c.toNat ≤ 0xFF)

/-- Rust's `char::is_whitespace` (Unicode `White_Space`), embedded exactly on
the Basic Latin and Latin-1 Supplement blocks: 0x09–0x0D, 0x20, 0x85, 0xA0.
(The true property also holds above 0xFF; `remove_var_delimiters` is only ever
applied to matched spans, whose characters all lie below 0x100 in this model
and are never whitespace, so the omission is harmless.) -/
def isRustWhitespace (c : Char) : Bool :=
  (0x09 ≤ c.toNat && c.toNat ≤ 0x0D) ||
  c.toNat = 0x20 || c.toNat = 0x85 || c.toNat = 0xA0

/-- Rust's `str::trim`: drop whitespace from both ends. -/
def trimChars (l : List Char) : List Char :=
  ((l.dropWhile isRustWhitespace).reverse.dropWhile isRustWhitespace).reverse

/-- Rust's `str::replace(pat, "")` for a single-character pattern `pat`:
delete every occurrence of that character. -/
def removeAll (c : Char) (l : List Char) : List Char :=
  l.filter (fun x => x != c)

/-- Function `remove_var_delimiters` from `src/lib.rs`: delete every `{`, then every
`}`, then every `%`, then trim surrounding whitespace. -/
def remove_var_delimiters (raw_variable : List Char) : List Char :=
  trimChars (removeAll '%' (removeAll '\x7d' (removeAll '\x7b' raw_variable)))

/-- Attempt to match the token pattern `(%\{\{)([a-zA-Z_]\w*)(\}\})` at the
head of the input: the literal characters `%`, `{`, `{`, one `[a-zA-Z_]`
character, the greedy `\w*` run, then the literal characters `}`, `}`.
(Greediness is unambiguous: `\w` never matches `}`, so no shorter run of
`\w*` can be followed by `}}` when the greedy one is not.)  On success,
returns the matched span (capture 0), the identifier capture (capture 2) and
the remaining input. -/
def matchToken : List Char → Option (List Char × List Char × List Char)
  | a :: b :: b2 :: c :: rest =>
    if a = '%' && b = '\x7b' && b2 = '\x7b' && isIdentStart c then
      match rest.dropWhile isWordChar with
      | d :: d2 :: rest2 =>
        if d = '\x7d' && d2 = '\x7d' then
          some (a :: b :: b2 :: c :: (rest.takeWhile isWordChar ++ [d, d2]),
                c :: rest.takeWhile isWordChar,
                rest2)
        else none
      | _ => none
    else none
  | _ => none

/-- One fragment of the template as seen by `RE.replace_all`: either a literal
(unmatched) character run copied verbatim, or a matched token span. -/
inductive Piece where
  | lit (s : List Char)
  | tok (raw : List Char)
deriving DecidableEq, Repr

/-- The text a piece occupies in the template. -/
def Piece.raw : Piece → List Char
  | .lit s => s
  | .tok r => r

/-- The text a piece contributes to the output: literals verbatim, a matched
token replaced by exactly what the strategy returns for
`remove_var_delimiters` of the matched span — the replacement is spliced in
as-is and never rescanned. -/
def Piece.render (r : List Char → List Char) : Piece → List Char
  | .lit s => s
  | .tok raw => r (remove_var_delimiters raw)

/-- Left-to-right non-overlapping scan of the template into pieces, fuelled
(each step consumes at least one character, so fuel `l.length` is exact; out
of fuel, the rest is emitted as a literal).  This is the match enumeration
`RE.replace_all` performs: try a match at the current position, emit it and
resume right after it, otherwise emit the current character as literal text
and advance by one (a match can only start at `%`, so single-character
advance never skips a match start). -/
def scanF : Nat → List Char → List Piece
  | _, [] => []
  | 0, l => [Piece.lit l]
  | n + 1, c :: cs =>
    match matchToken (c :: cs) with
    | some (raw, _, rest) => Piece.tok raw :: scanF n rest
    | none => Piece.lit [c] :: scanF n cs

/-- The piece decomposition of a template. -/
def scan (t : List Char) : List Piece := scanF t.length t

/-- Fuelled form of `replace_variables` from `src/lib.rs`: walk the template
left to right; at a match, emit `replacement_strategy(remove_var_delimiters
(caps[0]))` and resume after the matched span; otherwise copy the character.
This is exactly the loop `RE.replace_all` runs with the source's closure. -/
def replaceVarsF (r : List Char → List Char) : Nat → List Char → List Char
  | _, [] => []
  | 0, l => l
  | n + 1, c :: cs =>
    match matchToken (c :: cs) with
    | some (raw, _, rest) => r (remove_var_delimiters raw) ++ replaceVarsF r n rest
    | none => c :: replaceVarsF r n cs

/-- Function `replace_variables` from `src/lib.rs` on the char-list model. -/
def replace_variables (template_text : List Char) (r : List Char → List Char) :
    List Char :=
  replaceVarsF r template_text.length template_text

/-- The identifiers handed to the replacement strategy, one per match, in
left-to-right match order (fuelled). -/
def identsF (n : Nat) (l : List Char) : List (List Char) :=
  ((scanF n l).filterMap fun p =>
    match p with
    | .tok raw => some raw
    | .lit _ => none).map remove_var_delimiters

/-- The identifiers handed to the replacement strategy by
`replace_variables t r`, in call order. -/
def identsOf (t : List Char) : List (List Char) := identsF t.length t

/-- Whether a piece is a matched token span. -/
def Piece.isTok : Piece → Bool
  | .tok _ => true
  | .lit _ => false

/-- Whether the template contains any occurrence of the token pattern. -/
def hasToken (t : List Char) : Bool :=
  (scan t).any Piece.isTok

/-- Function `replace_variables` on Lean strings (the Rust function takes
an `&str` and returns a `String`). -/
def replaceVariablesS (t : String) (rs : String → String) : String :=
  String.mk (replace_variables t.data fun l => (rs (String.mk l)).data)

/-- Identifiers handed to the strategy, on Lean strings. -/
def identsOfS (t : String) : List String := (identsOf t.data).map String.mk

/-- The loop of `replace_variables` with the strategy's effects made
explicit: the strategy thread an arbitrary state through its invocations, in
the order the loop performs them.  The Rust strategy is `Fn(&str) -> String`
and may observe external state (the engine neither caches nor deduplicates
calls); explicit state passing is the shallow embedding of that. -/
def replaceVarsStF {σ : Type} (r : List Char → σ → List Char × σ) :
    Nat → List Char → σ → List Char × σ
  | _, [], s => ([], s)
  | 0, l, s => (l, s)
  | n + 1, c :: cs, s =>
    match matchToken (c :: cs) with
    | some (raw, _, rest) =>
      let vs := r (remove_var_delimiters raw) s
      let os := replaceVarsStF r n rest vs.2
      (vs.1 ++ os.1, os.2)
    | none =>
      let os := replaceVarsStF r n cs s
      (c :: os.1, os.2)

/-- Run of `replace_variables` with a logging wrapper around the strategy: the
state records each identifier at the moment the strategy is invoked, so the
final state is the exact sequence of strategy invocations. -/
def replaceVariablesLog (t : List Char) (f : List Char → List Char) :
    List Char × List (List Char) :=
  replaceVarsStF (fun idl log => (f idl, log ++ [idl])) t.length t []

/-- The loop of `replace_variables` with a strategy that can fail.  The
source's strategy type `Fn(&str) -> String` can fail only by panicking, and
`replace_all` propagates the unwinding: the whole call aborts, no partial
output is observable, nothing is retried.  `Except` is the shallow embedding
of that failure channel. -/
def replaceVarsExF {ε : Type} (r : List Char → Except ε (List Char)) :
    Nat → List Char → Except ε (List Char)
  | _, [] => .ok []
  | 0, l => .ok l
  | n + 1, c :: cs =>
    match matchToken (c :: cs) with
    | some (raw, _, rest) => do
      let v ← r (remove_var_delimiters raw)
      let out ← replaceVarsExF r n rest
      pure (v ++ out)
    | none => do
      let out ← replaceVarsExF r n cs
      pure (c :: out)

/-- Run of `replace_variables` with a failing-capable strategy. -/
def replaceVariablesEx {ε : Type} (t : List Char)
    (r : List Char → Except ε (List Char)) : Except ε (List Char) :=
  replaceVarsExF r t.length t

/-- First failure among a sequence of strategy calls, in call order. -/
def firstError {ε : Type} (r : List Char → Except ε (List Char)) :
    List (List Char) → Option ε
  | [] => none
  | idl :: ids =>
    match r idl with
    | .error e => some e
    | .ok _ => firstError r ids

/-- Modelled from the spec: "strict capture-group extraction", the
alternative the spec contrasts with `remove_var_delimiters` — on a string
that is in its entirety a match of the token pattern, read off the value of
the identifier capture group (group 2) directly. -/
def fullMatchCapture (l : List Char) : Option (List Char) :=
  match matchToken l with
  | some (_, idl, rest) => if rest = [] then some idl else none
  | none => none

/-- Rust's `std::env::VarError`: the variable is unset (`NotPresent`), or set
to a value that is not valid Unicode (`NotUnicode`, carrying the raw OS
bytes). -/
inductive VarError where
  | notPresent
  | notUnicode (bytes : List Nat)
deriving DecidableEq, Repr

/-- Function `map_to_env` from `src/lib.rs`: look the name up via `env::var`; on
success return the value, on any error return the empty string.  The process
environment lookup `env::var` is modelled as an explicit function from names
to `Except VarError String`. -/
def map_to_env (env : String → Except VarError String) (var : String) : String :=
  match env var with
  | .ok val => val
  | .error _ => ""

/-- The ASCII identifier class `[A-Za-z_][A-Za-z0-9_]*` described by the
spec: first character an ASCII letter or underscore, subsequent characters
ASCII letters, digits or underscores. -/
def isAsciiIdent : List Char → Bool
  | [] => false
  | c :: cs =>
    isIdentStart c && cs.all fun x =>
      (0x61 ≤ x.toNat && x.toNat ≤ 0x7A) ||
      (0x41 ≤ x.toNat && x.toNat ≤ 0x5A) ||
      (0x30 ≤ x.toNat && x.toNat ≤ 0x39) ||
      x.toNat = 0x5F

/-- A sample environment for concrete checks: `FOO` is set to `bar`, `BAD`
is set to a value that is not valid Unicode (the byte `0xC3` followed by
`0x28` is not well-formed UTF-8), and every other name is unset. -/
def envSample : String → Except VarError String := fun v =>
  if v = "FOO" then .ok "bar"
  else if v = "BAD" then .error (.notUnicode [0xC3, 0x28])
  else .error .notPresent

end StrVarSubst

namespace StrVarSubst

theorem char_ne_of_toNat_ne {c d : Char} (h : c.toNat ≠ d.toNat) : c ≠ d :=
  fun hcd => h (congrArg Char.toNat hcd)

theorem isWordChar_of_isIdentStart {c : Char} (h : isIdentStart c = true) :
    isWordChar c = true := by
  simp only [isIdentStart, Bool.or_eq_true, Bool.and_eq_true, decide_eq_true_eq] at h
  simp only [isWordChar, Bool.or_eq_true, Bool.and_eq_true, decide_eq_true_eq]
  omega

theorem wordChar_props {c : Char} (h : isWordChar c = true) :
    c ≠ '%' ∧ c ≠ '\x7b' ∧ c ≠ '\x7d' ∧ isRustWhitespace c = false := by
  simp only [isWordChar, Bool.or_eq_true, Bool.and_eq_true, decide_eq_true_eq] at h
  have e1 : ('%' : Char).toNat = 37 := rfl
  have e2 : ('\x7b' : Char).toNat = 123 := rfl
  have e3 : ('\x7d' : Char).toNat = 125 := rfl
  refine ⟨char_ne_of_toNat_ne (by rw [e1]; omega),
          char_ne_of_toNat_ne (by rw [e2]; omega),
          char_ne_of_toNat_ne (by rw [e3]; omega), ?_⟩
  cases hw : isRustWhitespace c with
  | false => rfl
  | true =>
    exfalso
    simp only [isRustWhitespace, Bool.or_eq_true, Bool.and_eq_true,
      decide_eq_true_eq] at hw
    omega

theorem matchToken_some {l raw idl rest : List Char}
    (h : matchToken l = some (raw, idl, rest)) :
    ∃ c run, idl = c :: run ∧ isIdentStart c = true ∧
      (∀ x ∈ run, isWordChar x = true) ∧
      raw = '%' :: '\x7b' :: '\x7b' :: (idl ++ ['\x7d', '\x7d']) ∧
      raw ++ rest = l ∧ rest.length < l.length := by
  match l with
  | [] => simp [matchToken] at h
  | [a] => simp [matchToken] at h
  | [a, b] => simp [matchToken] at h
  | [a, b, b2] => simp [matchToken] at h
  | a :: b :: b2 :: c :: rest0 =>
    simp only [matchToken] at h
    by_cases hg : (a = '%' && b = '\x7b' && b2 = '\x7b' && isIdentStart c) = true
    · rw [if_pos hg] at h
      split at h
      · rename_i d d2 rest2 hd
        split at h
        · rename_i hg2
          simp only [Option.some.injEq, Prod.mk.injEq] at h
          obtain ⟨hraw, hid, hrest⟩ := h
          simp only [Bool.and_eq_true, decide_eq_true_eq] at hg hg2
          obtain ⟨⟨⟨ha, hb⟩, hb2⟩, hc⟩ := hg
          obtain ⟨hdd, hdd2⟩ := hg2
          subst ha; subst hb; subst hb2; subst hdd; subst hdd2
          subst hraw; subst hid; subst hrest
          refine ⟨c, rest0.takeWhile isWordChar, rfl, hc,
            fun x hx => List.mem_takeWhile_imp hx, by simp, ?_, ?_⟩
          · have htd := List.takeWhile_append_dropWhile (p := isWordChar) (l := rest0)
            rw [hd] at htd
            simp only [List.cons_append, List.append_assoc, List.nil_append]
            rw [htd]
          · have htd := congrArg List.length
              (List.takeWhile_append_dropWhile (p := isWordChar) (l := rest0))
            rw [hd] at htd
            simp only [List.length_append, List.length_cons] at htd ⊢
            omega
        · exact absurd h (by simp)
      · exact absurd h (by simp)
    · rw [if_neg hg] at h; exact absurd h (by simp)


theorem dropWhile_of_forall_false {p : Char → Bool} {l : List Char}
    (h : ∀ x ∈ l, p x = false) : l.dropWhile p = l := by
  cases l with
  | nil => rfl
  | cons a t => rw [List.dropWhile_cons]; simp [h a (by simp)]

theorem trimChars_of_no_whitespace {l : List Char}
    (h : ∀ x ∈ l, isRustWhitespace x = false) : trimChars l = l := by
  unfold trimChars
  rw [dropWhile_of_forall_false h,
    dropWhile_of_forall_false (fun x hx => h x (by simpa using hx)),
    List.reverse_reverse]

theorem removeAll_of_forall_ne {c : Char} {l : List Char}
    (h : ∀ x ∈ l, x ≠ c) : removeAll c l = l := by
  unfold removeAll
  rw [List.filter_eq_self]
  intro a ha
  simpa using h a ha

/-- On the text of any matched span, the permissive delimiter stripping
recovers exactly the identifier characters. -/
theorem remove_var_delimiters_token {idl : List Char}
    (h : ∀ x ∈ idl, isWordChar x = true) :
    remove_var_delimiters ('%' :: '\x7b' :: '\x7b' :: (idl ++ ['\x7d', '\x7d'])) = idl := by
  have hprops := fun x hx => wordChar_props (h x hx)
  unfold remove_var_delimiters
  have h1 : removeAll '\x7b' ('%' :: '\x7b' :: '\x7b' :: (idl ++ ['\x7d', '\x7d'])) =
      '%' :: (idl ++ ['\x7d', '\x7d']) := by
    unfold removeAll
    rw [List.filter_cons_of_pos (by decide), List.filter_cons_of_neg (by decide),
      List.filter_cons_of_neg (by decide), List.filter_append,
      List.filter_eq_self.mpr (fun a ha => by simpa using (hprops a ha).2.1),
      show List.filter (fun x => x != '\x7b') ['\x7d', '\x7d'] = ['\x7d', '\x7d'] from rfl]
  have h2 : removeAll '\x7d' ('%' :: (idl ++ ['\x7d', '\x7d'])) = '%' :: idl := by
    unfold removeAll
    rw [List.filter_cons_of_pos (by decide), List.filter_append,
      List.filter_eq_self.mpr (fun a ha => by simpa using (hprops a ha).2.2.1),
      show List.filter (fun x => x != '\x7d') ['\x7d', '\x7d'] = [] from rfl,
      List.append_nil]
  have h3 : removeAll '%' ('%' :: idl) = idl := by
    unfold removeAll
    rw [List.filter_cons_of_neg (by decide),
      List.filter_eq_self.mpr (fun a ha => by simpa using (hprops a ha).1)]
  rw [h1, h2, h3]
  exact trimChars_of_no_whitespace (fun x hx => (hprops x hx).2.2.2)


/-- The loop of `replace_variables` renders exactly the piece decomposition:
literal pieces verbatim, matched pieces by the strategy's answer, spliced in
source order. -/
theorem replaceVarsF_eq_render (r : List Char → List Char) :
    ∀ (n : Nat) (l : List Char),
      replaceVarsF r n l = ((scanF n l).map (Piece.render r)).flatten := by
  intro n
  induction n with
  | zero =>
    intro l
    cases l with
    | nil => rfl
    | cons c cs => simp [replaceVarsF, scanF, Piece.render]
  | succ n ih =>
    intro l
    cases l with
    | nil => rfl
    | cons c cs =>
      cases hm : matchToken (c :: cs) with
      | some trip =>
        obtain ⟨raw, idl, rest⟩ := trip
        simp [replaceVarsF, scanF, hm, Piece.render, ih]
      | none => simp [replaceVarsF, scanF, hm, Piece.render, ih]

/-- The pieces of the decomposition tile the template exactly: concatenating
their source text in order gives the template back. -/
theorem scanF_raw_join :
    ∀ (n : Nat) (l : List Char), ((scanF n l).map Piece.raw).flatten = l := by
  intro n
  induction n with
  | zero =>
    intro l
    cases l with
    | nil => rfl
    | cons c cs => simp [scanF, Piece.raw]
  | succ n ih =>
    intro l
    cases l with
    | nil => rfl
    | cons c cs =>
      cases hm : matchToken (c :: cs) with
      | some trip =>
        obtain ⟨raw, idl, rest⟩ := trip
        obtain ⟨c0, run, -, -, -, -, hjoin, -⟩ := matchToken_some hm
        simp [scanF, hm, Piece.raw, ih, hjoin]
      | none => simp [scanF, hm, Piece.raw, ih]

/-- Shape of every matched span in a scan: opening delimiter, an identifier
whose first character is `[a-zA-Z_]` and whose remaining characters are word
characters, closing delimiter. -/
theorem mem_scanF_tok {n : Nat} {l raw : List Char}
    (h : Piece.tok raw ∈ scanF n l) :
    ∃ c run, isIdentStart c = true ∧ (∀ x ∈ run, isWordChar x = true) ∧
      raw = '%' :: '\x7b' :: '\x7b' :: ((c :: run) ++ ['\x7d', '\x7d']) := by
  induction n generalizing l with
  | zero =>
    cases l with
    | nil => simp [scanF] at h
    | cons c cs => simp [scanF] at h
  | succ n ih =>
    cases l with
    | nil => simp [scanF] at h
    | cons c cs =>
      cases hm : matchToken (c :: cs) with
      | some trip =>
        obtain ⟨raw0, idl, rest⟩ := trip
        rw [scanF, hm] at h
        simp only [List.mem_cons] at h
        cases h with
        | inl heq =>
          obtain ⟨c0, run, hid, hst, hrun, hraw, -, -⟩ := matchToken_some hm
          cases heq
          exact ⟨c0, run, hst, hrun, by rw [hraw, hid]⟩
        | inr hmem => exact ih hmem
      | none =>
        rw [scanF, hm] at h
        simp only [List.mem_cons] at h
        cases h with
        | inl heq => cases heq
        | inr hmem => exact ih hmem

/-- Every identifier handed to the strategy is non-empty, starts with an
ASCII letter or underscore, and continues with word characters. -/
theorem mem_identsF {n : Nat} {l idl : List Char} (h : idl ∈ identsF n l) :
    ∃ c run, idl = c :: run ∧ isIdentStart c = true ∧
      ∀ x ∈ run, isWordChar x = true := by
  unfold identsF at h
  simp only [List.mem_map, List.mem_filterMap] at h
  obtain ⟨raw, ⟨p, hp, hpr⟩, hrvd⟩ := h
  cases p with
  | lit s => simp at hpr
  | tok raw0 =>
    simp only [Option.some.injEq] at hpr
    cases hpr
    obtain ⟨c, run, hst, hrun, hraw⟩ := mem_scanF_tok hp
    refine ⟨c, run, ?_, hst, hrun⟩
    rw [← hrvd, hraw]
    exact remove_var_delimiters_token (by
      intro x hx
      rcases List.mem_cons.mp hx with rfl | hx2
      · exact isWordChar_of_isIdentStart hst
      · exact hrun x hx2)

/-- A template whose scan has no matched piece passes through the loop
unchanged. -/
theorem replaceVarsF_of_no_tok (r : List Char → List Char) :
    ∀ (n : Nat) (l : List Char), (scanF n l).any Piece.isTok = false →
      replaceVarsF r n l = l := by
  intro n
  induction n with
  | zero =>
    intro l hl
    cases l with
    | nil => rfl
    | cons c cs => rfl
  | succ n ih =>
    intro l hl
    cases l with
    | nil => rfl
    | cons c cs =>
      cases hm : matchToken (c :: cs) with
      | some trip =>
        obtain ⟨raw, idl, rest⟩ := trip
        rw [scanF, hm] at hl
        simp [Piece.isTok] at hl
      | none =>
        rw [scanF, hm] at hl
        rw [replaceVarsF, hm]
        simp only [List.any_cons, Piece.isTok, Bool.false_or] at hl
        rw [ih cs hl]


/-- With a logging strategy, the loop computes the same output as the plain
loop and its log is exactly the identifier sequence of the template, one
entry appended per strategy invocation, in loop order. -/
theorem replaceVarsStF_spec (f : List Char → List Char) :
    ∀ (n : Nat) (l : List Char) (log : List (List Char)),
      replaceVarsStF (fun idl lg => (f idl, lg ++ [idl])) n l log =
        (replaceVarsF f n l, log ++ identsF n l) := by
  intro n
  induction n with
  | zero =>
    intro l log
    cases l with
    | nil => simp [replaceVarsStF, replaceVarsF, identsF, scanF]
    | cons c cs => simp [replaceVarsStF, replaceVarsF, identsF, scanF]
  | succ n ih =>
    intro l log
    cases l with
    | nil => simp [replaceVarsStF, replaceVarsF, identsF, scanF]
    | cons c cs =>
      cases hm : matchToken (c :: cs) with
      | some trip =>
        obtain ⟨raw, idl, rest⟩ := trip
        rw [replaceVarsStF, replaceVarsF, hm]
        simp only [ih]
        rw [show identsF (n + 1) (c :: cs) =
            remove_var_delimiters raw :: identsF n rest by
          unfold identsF
          rw [scanF, hm]
          simp [List.filterMap_cons]]
        simp
      | none =>
        rw [replaceVarsStF, replaceVarsF, hm]
        simp only [ih]
        rw [show identsF (n + 1) (c :: cs) = identsF n cs by
          unfold identsF
          rw [scanF, hm]
          simp [List.filterMap_cons]]

/-- A strategy that never fails never makes the loop fail, and the result is
the plain loop's output. -/
theorem replaceVarsExF_ok {ε : Type} (r : List Char → Except ε (List Char))
    (f : List Char → List Char) (hok : ∀ idl, r idl = .ok (f idl)) :
    ∀ (n : Nat) (l : List Char),
      replaceVarsExF r n l = .ok (replaceVarsF f n l) := by
  intro n
  induction n with
  | zero =>
    intro l
    cases l with
    | nil => rfl
    | cons c cs => rfl
  | succ n ih =>
    intro l
    cases l with
    | nil => rfl
    | cons c cs =>
      cases hm : matchToken (c :: cs) with
      | some trip =>
        obtain ⟨raw, idl, rest⟩ := trip
        rw [replaceVarsExF, replaceVarsF, hm]
        simp [hok, ih, Bind.bind, Except.bind, pure, Except.pure]
      | none =>
        rw [replaceVarsExF, replaceVarsF, hm]
        simp [ih, Bind.bind, Except.bind, pure, Except.pure]

/-- If some strategy call fails, the loop's result is exactly the first
failure in call order. -/
theorem replaceVarsExF_error {ε : Type} (r : List Char → Except ε (List Char)) :
    ∀ (n : Nat) (l : List Char) (e : ε),
      firstError r (identsF n l) = some e →
      replaceVarsExF r n l = .error e := by
  intro n
  induction n with
  | zero =>
    intro l e hl
    cases l with
    | nil => simp [identsF, scanF, firstError] at hl
    | cons c cs => simp [identsF, scanF, firstError] at hl
  | succ n ih =>
    intro l e hl
    cases l with
    | nil => simp [identsF, scanF, firstError] at hl
    | cons c cs =>
      cases hm : matchToken (c :: cs) with
      | some trip =>
        obtain ⟨raw, idl, rest⟩ := trip
        rw [show identsF (n + 1) (c :: cs) =
            remove_var_delimiters raw :: identsF n rest by
          unfold identsF
          rw [scanF, hm]
          simp [List.filterMap_cons]] at hl
        rw [replaceVarsExF, hm]
        rw [firstError] at hl
        cases hr : r (remove_var_delimiters raw) with
        | error e0 =>
          rw [hr] at hl
          simp only [Option.some.injEq] at hl
          cases hl
          simp [hr, Bind.bind, Except.bind]
        | ok v =>
          rw [hr] at hl
          simp only [hr, Bind.bind, Except.bind]
          rw [ih rest e hl]
      | none =>
        rw [show identsF (n + 1) (c :: cs) = identsF n cs by
          unfold identsF
          rw [scanF, hm]
          simp [List.filterMap_cons]] at hl
        rw [replaceVarsExF, hm]
        simp only [Bind.bind, Except.bind]
        rw [ih cs e hl]


theorem filterMap_tok_length (ps : List Piece) :
    (ps.filterMap fun p =>
      match p with
      | .tok raw => some raw
      | .lit _ => none).length = (ps.filter Piece.isTok).length := by
  induction ps with
  | nil => rfl
  | cons p ps ih =>
    cases p <;> simp [List.filterMap_cons, List.filter_cons, Piece.isTok, ih]

/-- C2: for every template and strategy, the output of `replace_variables`
is the concatenation, in left-to-right order, of every unmatched literal
span verbatim with, in place of each matched token, exactly the string the
strategy returns for that token's identifier (trailing unmatched text
included verbatim); moreover the spans tile the template exactly. -/
theorem replace_variables_is_span_concatenation
    (t : List Char) (r : List Char → List Char) :
    replace_variables t r = ((scan t).map (Piece.render r)).flatten ∧
    ((scan t).map Piece.raw).flatten = t :=
  ⟨replaceVarsF_eq_render r t.length t, scanF_raw_join t.length t⟩

/-- C1 counterexample: in `"%\x7b\x7b name \x7d\x7d"` the whitespace sits
immediately inside the delimiters, yet the engine does not match a token at
all: no identifier is handed to the strategy, and the text passes through
unchanged instead of being replaced by the strategy's answer `"JOHN"`. -/
theorem whitespace_token_not_matched :
    replaceVariablesS "%\x7b\x7b name \x7d\x7d" (fun _ => "JOHN") =
      "%\x7b\x7b name \x7d\x7d" ∧
    replaceVariablesS "%\x7b\x7b name \x7d\x7d" (fun _ => "JOHN") ≠ "JOHN" ∧
    identsOfS "%\x7b\x7b name \x7d\x7d" = [] := by
  refine ⟨by decide, by decide, by decide⟩

/-- C1 amended: whitespace never occurs inside a matched span — the pattern
admits none — so a template like `"%\x7b\x7b name \x7d\x7d"` is not
matched and passes through unchanged for every strategy; the
whitespace-trimming inside `remove_var_delimiters` never observes
whitespace. -/
theorem matched_spans_have_no_whitespace
    (n : Nat) (l raw : List Char) (h : Piece.tok raw ∈ scanF n l) :
    (∀ x ∈ raw, isRustWhitespace x = false) ∧
    (∀ rs : String → String,
      replaceVariablesS "%\x7b\x7b name \x7d\x7d" rs =
        "%\x7b\x7b name \x7d\x7d") := by
  constructor
  · obtain ⟨c, run, hst, hrun, hraw⟩ := mem_scanF_tok h
    intro x hx
    rw [hraw] at hx
    simp only [List.mem_cons, List.mem_append] at hx
    rcases hx with rfl | rfl | rfl | (hx | hx) | hlast
    · decide
    · decide
    · decide
    · exact hx ▸ (wordChar_props (isWordChar_of_isIdentStart hst)).2.2.2
    · exact (wordChar_props (hrun x hx)).2.2.2
    · rcases hlast with hx2 | hx2 | hx2
      · subst hx2; decide
      · subst hx2; decide
      · simp at hx2
  · intro rs
    show String.mk _ = _
    rw [show replace_variables (String.data "%\x7b\x7b name \x7d\x7d")
          (fun l => (rs (String.mk l)).data) =
        String.data "%\x7b\x7b name \x7d\x7d" from
      replaceVarsF_of_no_tok _ _ _ (by decide)]

theorem matched_spans_have_no_whitespace_witness :
    (Piece.tok ("%\x7b\x7ba\x7d\x7d".data) ∈ scanF 6 ("%\x7b\x7ba\x7d\x7d".data)) ∧
    (∀ x ∈ "%\x7b\x7ba\x7d\x7d".data, isRustWhitespace x = false) :=
  ⟨by decide, (matched_spans_have_no_whitespace 6 ("%\x7b\x7ba\x7d\x7d".data)
    ("%\x7b\x7ba\x7d\x7d".data) (by decide)).1⟩

/-- C3 counterexample: the regex crate's `\w` is Unicode-aware, so the
template `"%\x7b\x7bné\x7d\x7d"` is matched and the strategy is handed
the identifier `"né"`, which does not match the ASCII class
`[A-Za-z_][A-Za-z0-9_]*` claimed by the spec. -/
theorem non_ascii_identifier_reaches_strategy :
    identsOfS "%\x7b\x7bné\x7d\x7d" = ["né"] ∧
    (replaceVariablesLog "%\x7b\x7bné\x7d\x7d".data (fun _ => [])).2 =
      ["né".data] ∧
    isAsciiIdent "né".data = false := by
  refine ⟨by decide, ?_, by decide⟩
  rw [show replaceVariablesLog "%\x7b\x7bné\x7d\x7d".data (fun _ => []) =
      (replace_variables "%\x7b\x7bné\x7d\x7d".data (fun _ => []),
        identsOf "%\x7b\x7bné\x7d\x7d".data) from
    replaceVarsStF_spec _ _ _ []]
  decide

/-- C3 amended: every identifier handed to the strategy is non-empty and has
an ASCII `[A-Za-z_]` first character, but its remaining characters range
over the full Unicode word-character class `\w`, which properly exceeds
ASCII `[A-Za-z0-9_]`. -/
theorem identifier_shape (t idl : List Char) (h : idl ∈ identsOf t) :
    ∃ c run, idl = c :: run ∧ isIdentStart c = true ∧
      ∀ x ∈ run, isWordChar x = true :=
  mem_identsF h

theorem identifier_shape_witness :
    ("name".data ∈ identsOf "%\x7b\x7bname\x7d\x7d".data) ∧
    ∃ c run, "name".data = c :: run ∧ isIdentStart c = true ∧
      ∀ x ∈ run, isWordChar x = true :=
  ⟨by decide, identifier_shape ("%\x7b\x7bname\x7d\x7d".data) ("name".data)
    (by decide)⟩

/-- C4: a template with no occurrence of the token pattern — in particular
the malformed `"%\x7b\x7b123abc\x7d\x7d"` (identifier starting with a
digit) and `"%\x7b\x7bunterminated"` (no closing braces) — is returned
unchanged by `replace_variables`, for every strategy. -/
theorem no_token_passthrough (t : List Char) (r : List Char → List Char)
    (h : hasToken t = false) :
    replace_variables t r = t ∧
    (∀ rs : String → String,
      replaceVariablesS "%\x7b\x7b123abc\x7d\x7d" rs =
        "%\x7b\x7b123abc\x7d\x7d") ∧
    (∀ rs : String → String,
      replaceVariablesS "%\x7b\x7bunterminated" rs =
        "%\x7b\x7bunterminated") := by
  refine ⟨replaceVarsF_of_no_tok r t.length t h, ?_, ?_⟩
  · intro rs
    show String.mk _ = _
    rw [show replace_variables (String.data "%\x7b\x7b123abc\x7d\x7d")
          (fun l => (rs (String.mk l)).data) =
        String.data "%\x7b\x7b123abc\x7d\x7d" from
      replaceVarsF_of_no_tok _ _ _ (by decide)]
  · intro rs
    show String.mk _ = _
    rw [show replace_variables (String.data "%\x7b\x7bunterminated")
          (fun l => (rs (String.mk l)).data) =
        String.data "%\x7b\x7bunterminated" from
      replaceVarsF_of_no_tok _ _ _ (by decide)]

theorem no_token_passthrough_witness :
    hasToken "plain text".data = false ∧
    replace_variables "plain text".data (fun _ => "X".data) =
      "plain text".data :=
  ⟨by decide, (no_token_passthrough _ _ (by decide)).1⟩

/-- C5: substitution is single-pass: the piece decomposition is computed
from the template alone and the strategy's answers are spliced into the
output verbatim, never rescanned.  Concretely, the answer
`"%\x7b\x7bx\x7d\x7d"` — valid token syntax that this very strategy
would substitute to `"X"` if it were scanned — appears verbatim in the
output. -/
theorem no_reexpansion_of_replacements :
    (∀ (t : List Char) (r : List Char → List Char),
      replace_variables t r = ((scan t).map (Piece.render r)).flatten) ∧
    replaceVariablesS "%\x7b\x7ba\x7d\x7d"
      (fun s => if s = "a" then "%\x7b\x7bx\x7d\x7d" else "X") =
      "%\x7b\x7bx\x7d\x7d" ∧
    replaceVariablesS "%\x7b\x7bx\x7d\x7d"
      (fun s => if s = "a" then "%\x7b\x7bx\x7d\x7d" else "X") = "X" :=
  ⟨fun t r => replaceVarsF_eq_render r t.length t, by decide, by decide⟩

/-- C6: the strategy is invoked exactly once per match, in left-to-right
match order, with no retries, deduplication or caching: the invocation log
is exactly `identsOf t` — one entry per matched token of the template, in
template order, an identifier occurring at n positions appearing n times —
and the number of invocations equals the number of matched pieces. -/
theorem strategy_called_once_per_match (t : List Char)
    (f : List Char → List Char) :
    replaceVariablesLog t f = (replace_variables t f, identsOf t) ∧
    (identsOf t).length = ((scan t).filter Piece.isTok).length := by
  constructor
  · rw [show replaceVariablesLog t f =
        (replaceVarsF f t.length t, [] ++ identsF t.length t) from
      replaceVarsStF_spec f t.length t []]
    simp [replace_variables, identsOf]
  · unfold identsOf identsF scan
    rw [List.length_map]
    exact filterMap_tok_length _

/-- C7: on every string that is in its entirety a match of the token
pattern, the permissive normalization (delete every `\x7b`, `\x7d`, `%`
and trim) yields exactly the identifier capture group: the two extraction
strategies agree on matched spans. -/
theorem permissive_strip_eq_capture (t idl : List Char)
    (h : fullMatchCapture t = some idl) :
    remove_var_delimiters t = idl := by
  unfold fullMatchCapture at h
  split at h
  · rename_i raw idl0 rest hm
    split at h
    · rename_i hr
      simp only [Option.some.injEq] at h
      obtain ⟨c, run, hid, hst, hrun, hraw, hjoin, -⟩ := matchToken_some hm
      subst hr
      rw [List.append_nil] at hjoin
      rw [hid] at hraw
      rw [← h, hid, ← hjoin, hraw]
      refine remove_var_delimiters_token ?_
      intro x hx
      rcases List.mem_cons.mp hx with rfl | hx2
      · exact isWordChar_of_isIdentStart hst
      · exact hrun x hx2
    · cases h
  · cases h

theorem permissive_strip_eq_capture_witness :
    fullMatchCapture "%\x7b\x7bname\x7d\x7d".data = some "name".data ∧
    remove_var_delimiters "%\x7b\x7bname\x7d\x7d".data = "name".data :=
  ⟨by decide, permissive_strip_eq_capture _ _ (by decide)⟩

/-- C8: if the strategy fails, the whole call fails with exactly the first
failure in call order, propagated unmodified — the result type is
all-or-nothing, so no partial output exists and no fallback or retry occurs,
and strategy failure is the only failure the engine can produce; with a
never-failing strategy the call always succeeds, on any input, with the
plain output. -/
theorem resolver_failure_propagation {ε : Type} (t : List Char)
    (r : List Char → Except ε (List Char)) :
    (∀ f : List Char → List Char, (∀ idl, r idl = .ok (f idl)) →
      replaceVariablesEx t r = .ok (replace_variables t f)) ∧
    (∀ e : ε, firstError r (identsOf t) = some e →
      replaceVariablesEx t r = .error e) :=
  ⟨fun f hok => replaceVarsExF_ok r f hok t.length t,
   fun e he => replaceVarsExF_error r t.length t e he⟩

theorem resolver_failure_propagation_witness :
    replaceVariablesEx "a%\x7b\x7bv\x7d\x7db".data
        (fun _ => (Except.ok "X".data : Except Nat (List Char))) =
      .ok (replace_variables "a%\x7b\x7bv\x7d\x7db".data
        (fun _ => "X".data)) ∧
    firstError (fun _ => (Except.error 7 : Except Nat (List Char)))
        (identsOf "a%\x7b\x7bv\x7d\x7db".data) = some 7 ∧
    replaceVariablesEx "a%\x7b\x7bv\x7d\x7db".data
        (fun _ => (Except.error 7 : Except Nat (List Char))) = .error 7 :=
  ⟨(resolver_failure_propagation _ _).1 _ (fun idl => rfl),
   by decide,
   (resolver_failure_propagation _ _).2 7 (by decide)⟩

/-- C9: `map_to_env` returns the value of the environment variable when the
lookup succeeds, and the empty string when the variable is unset. -/
theorem map_to_env_set_unset (env : String → Except VarError String)
    (var val : String) :
    (env var = .ok val → map_to_env env var = val) ∧
    (env var = .error .notPresent → map_to_env env var = "") := by
  constructor <;> intro h <;> simp [map_to_env, h]

theorem map_to_env_set_unset_witness :
    envSample "FOO" = Except.ok "bar" ∧ map_to_env envSample "FOO" = "bar" ∧
    envSample "X" = Except.error VarError.notPresent ∧
    map_to_env envSample "X" = "" :=
  ⟨rfl, (map_to_env_set_unset envSample "FOO" "bar").1 rfl,
   rfl, (map_to_env_set_unset envSample "X" "bar").2 rfl⟩

/-- C10: `map_to_env` is total and collapses every lookup error — an unset
variable and a variable set to a non-Unicode value alike — to the empty
string, indistinguishably. -/
theorem map_to_env_collapses_all_errors
    (env env2 : String → Except VarError String) (var : String)
    (e e2 : VarError) (h : env var = .error e) (h2 : env2 var = .error e2) :
    map_to_env env var = "" ∧ map_to_env env var = map_to_env env2 var := by
  simp [map_to_env, h, h2]

theorem map_to_env_collapses_all_errors_witness :
    envSample "BAD" = Except.error (VarError.notUnicode [0xC3, 0x28]) ∧
    map_to_env envSample "BAD" = "" ∧
    map_to_env envSample "BAD" =
      map_to_env (fun _ => Except.error VarError.notPresent) "BAD" := by
  refine ⟨rfl, ?_, ?_⟩
  · exact (map_to_env_collapses_all_errors envSample
      (fun _ => Except.error VarError.notPresent) "BAD"
      (VarError.notUnicode [0xC3, 0x28]) VarError.notPresent rfl rfl).1
  · exact (map_to_env_collapses_all_errors envSample
      (fun _ => Except.error VarError.notPresent) "BAD"
      (VarError.notUnicode [0xC3, 0x28]) VarError.notPresent rfl rfl).2


/-- Sanity check mirroring the doc-test of `replace_variables` in
`src/lib.rs`. -/
theorem doc_example_check :
    replaceVariablesS "Hi my name is %\x7b\x7bname\x7d\x7d%\x7b\x7bno_var\x7d\x7d!"
      (fun v => if v = "name" then "John" else "") = "Hi my name is John!" := by
  decide

/-- Sanity check mirroring `test_simple_replacement` in `src/lib.rs`. -/
theorem simple_replacement_check :
    replaceVariablesS
      "This is a test string that has %\x7b\x7btest_num\x7d\x7d %\x7b\x7btest_num_2\x7d\x7d%\x7b\x7btest_num\x7d\x7d %\x7b\x7btest_num_2\x7d\x7d %\x7b\x7bempty_var\x7d\x7dvariables"
      (fun v => if v = "test_num" then "1" else if v = "test_num_2" then "2" else "") =
    "This is a test string that has 1 21 2 variables" := by
  decide

end StrVarSubst
